import Mathlib

/-!
# Shallow embedding of `squad_roulette` (src/main.rs)

This file embeds the core of the roulette application — the listing
fetcher, the selection engine (`start_spin`), the easing curve
(`ease_out_custom`), and the per-frame animation tick (the `Spinning`
branch of `eframe::App::update`) — as executable Lean definitions, and
proves the specification claims about them.

Modelling conventions:
* Rust `f32` values are modelled as rationals (`ℚ`); the claims are about
  the algorithmic content of the arithmetic, not about rounding.
* Random draws (`rng.gen_range`) are modelled as explicit parameters,
  constrained by hypotheses to the half-open ranges the code passes to
  `gen_range`.
* Wall-clock time (`Instant`) is external: the tick takes the elapsed
  time as a parameter, and the `spin_start_time: Option<Instant>` field
  is modelled as a flag recording whether it has been set.
* The HTTP source is modelled as a function from the request index to
  the outcome of that request (transport error, bad status, malformed
  payload, or a parsed page with records and an optional next cursor).
* Side effects that leave the state (playing the click sample,
  `request_repaint`) are not part of the embedded state; the click
  bookkeeping field `last_sound_index` is.
-/

/-! ## Constants (src/main.rs lines 15–21) -/

def ANIMATION_MIN_TIME : ℚ := 10
def ANIMATION_MAX_TIME : ℚ := 15
def TARGET_SCROLL_ROWS : Nat := 100
def BRAKING_POWER : Nat := 7
def ROW_HEIGHT : ℚ := 80

def EU_COUNTRIES_LIST : String := "DE,FR,PL,GB,UA,NL,CZ,SK,IT,ES,AT,BE,DK,SE,NO,FI,IE,TR"

/-- The allow-list set. The source builds it in the `lazy_static` block
by splitting `EU_COUNTRIES_LIST` on commas into a `HashSet` used only
for membership tests; the resulting 18 codes are written out here as a
list because `String.splitOn` is defined by well-founded recursion and
does not reduce in the kernel. -/
def EU_SET : List String :=
  ["DE", "FR", "PL", "GB", "UA", "NL", "CZ", "SK", "IT",
   "ES", "AT", "BE", "DK", "SE", "NO", "FI", "IE", "TR"]

/-! ## API data model (src/main.rs lines 29–70) -/

structure ApiDetails where
  map : Option String
  game_mode : Option String
deriving DecidableEq

structure ApiAttributes where
  name : String
  players : Nat
  max_players : Nat
  details : ApiDetails
  country : Option String
deriving DecidableEq

structure ServerItem where
  name : String
  players : Nat
  max_players : Nat
  map : String
  mode : String
  country : String
deriving DecidableEq

instance : Inhabited ServerItem := ⟨⟨"", 0, 0, "", "", ""⟩⟩

inductive RouletteState where
  | Ready
  | Loading
  | Spinning
  | Finished
deriving DecidableEq

/-! ## Listing fetcher (src/main.rs lines 80–138) -/

/-- Outcome of one HTTP request in the pagination loop: a transport
error (`request.send()` returns `Err`), a non-success HTTP status, a
body that fails to parse as `ApiResponse`, or a parsed page carrying its
records and the optional `links.next` cursor. -/
inductive PageOutcome where
  | transportErr
  | badStatus
  | malformed
  | ok (data : List ApiAttributes) (next : Option String)
deriving DecidableEq

def MAX_PAGES : Nat := 5

def base_url : String := "https://api.battlemetrics.com/servers"

/-- Per-record processing from the inner `for server_data in json.data`
loop: default the country to "??", drop the record unless the country is
in `EU_SET`, and default `map` and `gameMode` to "Unknown". -/
def convertAttr (attr : ApiAttributes) : Option ServerItem :=
  let country := attr.country.getD "??"
  if country ∈ EU_SET then
    some { name := attr.name
           players := attr.players
           max_players := attr.max_players
           map := attr.details.map.getD "Unknown"
           mode := attr.details.game_mode.getD "Unknown"
           country := country }
  else none

/-- The pagination loop of `fetch_roulette_servers`. `fetched` is
`pages_fetched`, `nextUrl` is `next_url`, `acc` is `all_servers`. The
source loop `while !next_url.is_empty() && pages_fetched < MAX_PAGES`
terminates because `pages_fetched` grows by one per iteration; here that
bound is made structural through the `fuel` argument, which is kept
equal to `MAX_PAGES - fetched` (so `fuel = 0` exactly when the
`fetched < MAX_PAGES` conjunct fails, and the two exits agree).
On an error outcome the source sets `next_url` to the empty string and
re-enters the loop, which then exits; the model does the same. -/
def fetchGo (src : Nat → PageOutcome) : Nat → Nat → String → List ServerItem → List ServerItem
  | 0, _, _, acc => acc
  | fuel + 1, fetched, nextUrl, acc =>
    if nextUrl ≠ "" ∧ fetched < MAX_PAGES then
      match src fetched with
      | .ok data next =>
          fetchGo src fuel (fetched + 1) (next.getD "") (acc ++ data.filterMap convertAttr)
      | _ => fetchGo src fuel (fetched + 1) "" acc
    else acc

/-- `fetch_roulette_servers`, as a function of the request outcomes. The
first request goes to `base_url` (with the fixed query filters, which do
not influence the control flow modelled here). -/
def fetch_roulette_servers (src : Nat → PageOutcome) : List ServerItem :=
  fetchGo src MAX_PAGES 0 base_url []

/-! ## Selection engine and animation (src/main.rs lines 140–268, 400–430) -/

/-- The fields of `RouletteApp` that the selection engine and the
animation tick read or write. The audio plumbing (`_audio_stream`,
`audio_handle`, `click_samples`) and the fetch channel (`roulette_rx`)
carry no algorithmic state and are omitted. -/
structure RouletteApp where
  min_players : Nat
  max_players : Nat
  roulette_servers : List ServerItem
  selected_server : Option ServerItem
  roulette_state : RouletteState
  spin_start_time : Bool
  current_scroll : ℚ
  start_scroll : ℚ
  target_scroll : ℚ
  current_animation_duration : ℚ
  last_sound_index : Int
  needs_update : Bool
deriving DecidableEq

/-- The loop count computed at spin start:
`(TARGET_SCROLL_ROWS / server_count).max(3)`, with Rust `usize`
division, i.e. floor division on `Nat`. -/
def loopsFor (server_count : Nat) : Nat :=
  max (TARGET_SCROLL_ROWS / server_count) 3

/-- `RouletteApp::start_spin`. The three `rng.gen_range` draws — the
winner index from `0..len`, the duration from
`ANIMATION_MIN_TIME..ANIMATION_MAX_TIME`, and the jitter from
`-30.0..30.0` — are passed in as parameters. -/
def start_spin (app : RouletteApp) (winner_idx : Nat) (duration jitter : ℚ) : RouletteApp :=
  if app.roulette_servers.isEmpty then app
  else
    let server_count := app.roulette_servers.length
    let loops := loopsFor server_count
    let target_index_virtual := loops * server_count + winner_idx
    { app with
      selected_server := some (app.roulette_servers.getD winner_idx default)
      current_animation_duration := duration
      target_scroll := (target_index_virtual : ℚ) * ROW_HEIGHT + jitter
      start_scroll := 0
      current_scroll := 0
      last_sound_index := -1
      spin_start_time := true
      roulette_state := RouletteState.Spinning }

/-- `RouletteApp::ease_out_custom`. -/
def ease_out_custom (t : ℚ) : ℚ :=
  if t ≥ 1 then 1 else 1 - (1 - t) ^ BRAKING_POWER

/-- The virtual row index used by the click scheduler:
`((current_scroll + ROW_HEIGHT * 0.5) / ROW_HEIGHT).floor()`. -/
def virtualRow (scroll : ℚ) : Int :=
  ⌊(scroll + ROW_HEIGHT * (1 / 2)) / ROW_HEIGHT⌋

/-- The `Spinning` branch of `eframe::App::update` (lines 400–430),
parametrised by the elapsed wall time since spin start. Playing the
click sample is a side effect outside the state; its bookkeeping
(`last_sound_index`) is updated exactly as in the source. -/
def tick (app : RouletteApp) (elapsed : ℚ) : RouletteApp :=
  if app.roulette_state = RouletteState.Spinning then
    if app.spin_start_time then
      if elapsed < app.current_animation_duration then
        let t := elapsed / app.current_animation_duration
        let ease_t := ease_out_custom t
        let new_scroll := app.start_scroll + (app.target_scroll - app.start_scroll) * ease_t
        if |app.target_scroll - new_scroll| < 1 / 2 then
          { app with current_scroll := app.target_scroll
                     roulette_state := RouletteState.Finished }
        else
          let current_idx := virtualRow new_scroll
          if current_idx > app.last_sound_index then
            { app with current_scroll := new_scroll, last_sound_index := current_idx }
          else
            { app with current_scroll := new_scroll }
      else
        { app with current_scroll := app.target_scroll
                   roulette_state := RouletteState.Finished }
    else app
  else app

/-! ## Click scheduling simulation (for the row-crossing claim) -/

/-- State of the click scheduler across ticks: `last` is
`last_sound_index`, `clicks` counts the click events fired. -/
structure SoundSim where
  last : Int
  clicks : Nat
deriving DecidableEq

/-- One tick of the click scheduler (lines 415–421) at a given scroll
offset: fire a click exactly when the virtual row index exceeds the last
crossed one. -/
def soundStep (s : SoundSim) (scroll : ℚ) : SoundSim :=
  let current_idx := virtualRow scroll
  if current_idx > s.last then { last := current_idx, clicks := s.clicks + 1 } else s

/-- The click scheduler run over a sequence of per-tick scroll offsets. -/
def runSound (s : SoundSim) (offsets : List ℚ) : SoundSim :=
  offsets.foldl soundStep s

/-! ## Easing curve lemmas -/

theorem ease_of_ge (t : ℚ) (h : 1 ≤ t) : ease_out_custom t = 1 := by
  simp [ease_out_custom, h]

theorem ease_of_lt (t : ℚ) (h : t < 1) :
    ease_out_custom t = 1 - (1 - t) ^ BRAKING_POWER := by
  simp [ease_out_custom, not_le.mpr h]

theorem ease_nonneg (t : ℚ) (h : 0 ≤ t) : 0 ≤ ease_out_custom t := by
  rcases le_or_lt 1 t with h1 | h1
  · rw [ease_of_ge t h1]; norm_num
  · rw [ease_of_lt t h1]
    have hb : (1 - t) ^ BRAKING_POWER ≤ 1 :=
      pow_le_one₀ (by linarith) (by linarith)
    linarith

theorem ease_le_one (t : ℚ) : ease_out_custom t ≤ 1 := by
  rcases le_or_lt 1 t with h1 | h1
  · rw [ease_of_ge t h1]
  · rw [ease_of_lt t h1]
    have hb : 0 ≤ (1 - t) ^ BRAKING_POWER := pow_nonneg (by linarith) _
    linarith

/-- C4: the easing function t ↦ 1 - (1-t)^7 is (strictly) monotonically
increasing on [0,1], equals 0 at t = 0, approaches 1 as t → 1, and the
implemented `ease_out_custom` returns exactly 1 for every t ≥ 1. -/
theorem ease_out_custom_spec :
    (∀ s t : ℚ, 0 ≤ s → s < t → t ≤ 1 → ease_out_custom s < ease_out_custom t) ∧
    ease_out_custom 0 = 0 ∧
    (∀ ε : ℚ, 0 < ε → ∃ δ : ℚ, 0 < δ ∧
      ∀ t : ℚ, |t - 1| < δ → |ease_out_custom t - 1| < ε) ∧
    (∀ t : ℚ, 1 ≤ t → ease_out_custom t = 1) := by
  refine ⟨?_, ?_, ?_, fun t h => ease_of_ge t h⟩
  · intro s t hs hst ht1
    have hs1 : s < 1 := lt_of_lt_of_le hst ht1
    rw [ease_of_lt s hs1]
    rcases eq_or_lt_of_le ht1 with rfl | ht
    · rw [ease_of_ge 1 le_rfl]
      have : (0 : ℚ) < (1 - s) ^ BRAKING_POWER := pow_pos (by linarith) _
      linarith
    · rw [ease_of_lt t ht]
      have : (1 - t) ^ BRAKING_POWER < (1 - s) ^ BRAKING_POWER :=
        pow_lt_pow_left₀ (by linarith) (by linarith) (by norm_num [BRAKING_POWER])
      linarith
  · rw [ease_of_lt 0 (by norm_num)]
    norm_num
  · intro ε hε
    refine ⟨min ε 1, lt_min hε one_pos, ?_⟩
    intro t ht
    rcases le_or_lt 1 t with h1 | h1
    · rw [ease_of_ge t h1]
      simpa using hε
    · rw [ease_of_lt t h1]
      have habs : |t - 1| = 1 - t := by
        rw [abs_of_nonpos (by linarith)]; ring
      have ht' : 1 - t < min ε 1 := habs ▸ ht
      have ht0 : 0 ≤ t := by
        have := lt_of_lt_of_le ht' (min_le_right ε 1)
        linarith
      have hpow : (1 - t) ^ BRAKING_POWER ≤ 1 - t :=
        pow_le_of_le_one (by linarith) (by linarith) (by norm_num [BRAKING_POWER])
      have hnn : 0 ≤ (1 - t) ^ BRAKING_POWER := pow_nonneg (by linarith) _
      have : |1 - (1 - t) ^ BRAKING_POWER - 1| = (1 - t) ^ BRAKING_POWER := by
        rw [show 1 - (1 - t) ^ BRAKING_POWER - 1 = -((1 - t) ^ BRAKING_POWER) by ring,
          abs_neg, abs_of_nonneg hnn]
      rw [this]
      calc (1 - t) ^ BRAKING_POWER ≤ 1 - t := hpow
        _ < min ε 1 := ht'
        _ ≤ ε := min_le_left ε 1

/-- Witness for C4: the easing curve strictly increases from 0 to 1/2,
and returns exactly 1 at t = 2. -/
theorem ease_out_custom_spec_witness :
    ease_out_custom 0 < ease_out_custom (1 / 2) ∧ ease_out_custom 2 = 1 :=
  ⟨ease_out_custom_spec.1 0 (1 / 2) (by norm_num) (by norm_num) (by norm_num),
   ease_out_custom_spec.2.2.2 2 (by norm_num)⟩

/-- C2 counterexample: for a listing of length 3 the code computes
`loopsFor 3 = ⌊100/3⌋ max 3 = 33`, while the claimed formula
`max(3, ⌈100/3⌉)` gives 34; moreover with winner index 0 the virtual
target row is `33*3 + 0 = 99 < 100`, so the scroll does not pass at
least 100 virtual rows. -/
theorem loopsFor_ceil_counterexample :
    loopsFor 3 = 33 ∧ max 3 ⌈(100 : ℚ) / 3⌉ = 34 ∧ loopsFor 3 * 3 + 0 < 100 := by
  refine ⟨by norm_num [loopsFor, TARGET_SCROLL_ROWS], ?_,
    by norm_num [loopsFor, TARGET_SCROLL_ROWS]⟩
  have hc : ⌈(100 : ℚ) / 3⌉ = 34 := by
    rw [Int.ceil_eq_iff]
    norm_num
  rw [hc]
  norm_num

/-- C2 amended: the full-loop count computed at spin start equals
`max(3, ⌊100 / L⌋)` (floor division, as Rust `usize` division rounds
down), so the scroll always makes at least 3 full loops through the
list, and always passes more than `100 - L` virtual rows. -/
theorem loopsFor_spec (L : Nat) (hL : 0 < L) :
    loopsFor L = max 3 (TARGET_SCROLL_ROWS / L) ∧
    3 ≤ loopsFor L ∧
    TARGET_SCROLL_ROWS - L < loopsFor L * L := by
  refine ⟨max_comm _ _, le_max_right _ _, ?_⟩
  have h1 : TARGET_SCROLL_ROWS < TARGET_SCROLL_ROWS / L * L + L :=
    Nat.lt_div_mul_add hL
  have h4 : TARGET_SCROLL_ROWS / L * L ≤ loopsFor L * L :=
    Nat.mul_le_mul_right L (le_max_left _ _)
  have h5 : 3 * L ≤ loopsFor L * L :=
    Nat.mul_le_mul_right L (le_max_right _ _)
  omega

/-- Witness for C2 amended, at L = 7: the loop count is
`max(3, ⌊100/7⌋) = 14`, at least 3, and `14 * 7 = 98 > 93 = 100 - 7`. -/
theorem loopsFor_spec_witness :
    loopsFor 7 = max 3 (TARGET_SCROLL_ROWS / 7) ∧
    3 ≤ loopsFor 7 ∧
    TARGET_SCROLL_ROWS - 7 < loopsFor 7 * 7 :=
  loopsFor_spec 7 (by norm_num)

/-- C7: requesting a spin while the listing is empty is a silent no-op:
`start_spin` returns the state unchanged in every field, whatever the
(never used) random draws would have been. -/
theorem start_spin_empty_noop (app : RouletteApp) (winner_idx : Nat)
    (duration jitter : ℚ) (h : app.roulette_servers = []) :
    start_spin app winner_idx duration jitter = app := by
  simp [start_spin, h]

/-- The `Default::default()` state of the application (lines 186–204),
which has an empty listing. -/
def appDefault : RouletteApp :=
  { min_players := 60
    max_players := 100
    roulette_servers := []
    selected_server := none
    roulette_state := RouletteState.Ready
    spin_start_time := false
    current_scroll := 0
    start_scroll := 0
    target_scroll := 0
    current_animation_duration := 10
    last_sound_index := -1
    needs_update := true }

/-- Witness for C7: spinning the default (empty-listing) state is the
identity. -/
theorem start_spin_empty_noop_witness :
    appDefault.roulette_servers = [] ∧ start_spin appDefault 0 12 5 = appDefault :=
  ⟨rfl, start_spin_empty_noop appDefault 0 12 5 rfl⟩

/-- C8: the per-frame tick is idempotent once settled: in any state
whose phase is `Finished` (the source's settled phase), a tick leaves
both the current scroll offset and the phase unchanged. -/
theorem tick_settled_noop (app : RouletteApp) (elapsed : ℚ)
    (h : app.roulette_state = RouletteState.Finished) :
    (tick app elapsed).current_scroll = app.current_scroll ∧
    (tick app elapsed).roulette_state = app.roulette_state := by
  simp [tick, h]

/-- A settled state: the default state after a finished spin. -/
def appSettled : RouletteApp :=
  { appDefault with
    roulette_state := RouletteState.Finished
    spin_start_time := true
    current_scroll := 2640
    target_scroll := 2640
    current_animation_duration := 12 }

/-- Witness for C8: ticking the settled state changes neither the
scroll offset nor the phase. -/
theorem tick_settled_noop_witness :
    (tick appSettled 20).current_scroll = appSettled.current_scroll ∧
    (tick appSettled 20).roulette_state = appSettled.roulette_state :=
  tick_settled_noop appSettled 20 rfl

/-- C1: for every non-empty listing, `start_spin` — with the three
random draws ranging over exactly the intervals the code passes to
`gen_range` (winner index in [0, L), duration in [10, 15), jitter in
[-30, 30)) — stores the listing element at the winner index as the
selected winner, sets `target_scroll = (loops*L + winnerIndex) *
ROW_HEIGHT + jitter`, `start_scroll = 0`, the drawn duration, and
enters the `Spinning` phase. -/
theorem start_spin_spec (app : RouletteApp) (winner_idx : Nat) (duration jitter : ℚ)
    (hne : app.roulette_servers ≠ [])
    (hidx : winner_idx < app.roulette_servers.length)
    (hdur_lo : ANIMATION_MIN_TIME ≤ duration) (hdur_hi : duration < ANIMATION_MAX_TIME)
    (hjit_lo : -30 ≤ jitter) (hjit_hi : jitter < 30) :
    (start_spin app winner_idx duration jitter).selected_server =
      some (app.roulette_servers.get ⟨winner_idx, hidx⟩) ∧
    app.roulette_servers.get ⟨winner_idx, hidx⟩ ∈ app.roulette_servers ∧
    (start_spin app winner_idx duration jitter).target_scroll =
      ((loopsFor app.roulette_servers.length * app.roulette_servers.length
        + winner_idx : Nat) : ℚ) * ROW_HEIGHT + jitter ∧
    (start_spin app winner_idx duration jitter).start_scroll = 0 ∧
    (start_spin app winner_idx duration jitter).current_animation_duration = duration ∧
    ANIMATION_MIN_TIME ≤ (start_spin app winner_idx duration jitter).current_animation_duration ∧
    (start_spin app winner_idx duration jitter).current_animation_duration
      < ANIMATION_MAX_TIME ∧
    (start_spin app winner_idx duration jitter).roulette_state = RouletteState.Spinning := by
  have hem : app.roulette_servers.isEmpty = false := by
    simpa [List.isEmpty_iff] using hne
  refine ⟨?_, List.get_mem _ _ hidx, ?_, ?_, ?_, ?_, ?_, ?_⟩ <;>
    simp [start_spin, hem, List.getElem?_eq_getElem hidx, hdur_lo, hdur_hi]

/-- Two concrete eligible servers and a ready application state. -/
def serverA : ServerItem :=
  { name := "Alpha", players := 80, max_players := 100
    map := "Narva", mode := "RAAS", country := "DE" }

def serverB : ServerItem :=
  { name := "Bravo", players := 70, max_players := 100
    map := "Yehorivka", mode := "AAS", country := "FR" }

def appReady : RouletteApp :=
  { appDefault with
    roulette_servers := [serverA, serverB]
    needs_update := false }

/-- Witness for C1: spinning a 2-element listing with winner index 1,
duration 12 and jitter 5 selects `serverB` and targets virtual row
`loops*2 + 1 = 101`. -/
theorem start_spin_spec_witness :
    (start_spin appReady 1 12 5).selected_server = some serverB ∧
    (start_spin appReady 1 12 5).target_scroll = 101 * ROW_HEIGHT + 5 ∧
    (start_spin appReady 1 12 5).start_scroll = 0 ∧
    (start_spin appReady 1 12 5).roulette_state = RouletteState.Spinning := by
  have h := start_spin_spec appReady 1 12 5
    (by simp [appReady, appDefault]) (by simp [appReady, appDefault])
    (by norm_num [ANIMATION_MIN_TIME]) (by norm_num [ANIMATION_MAX_TIME])
    (by norm_num) (by norm_num)
  refine ⟨h.1.trans rfl, h.2.2.1.trans ?_, h.2.2.2.1, h.2.2.2.2.2.2.2⟩
  norm_num [appReady, appDefault, loopsFor, TARGET_SCROLL_ROWS]

/-- C10: during a spin with `start_scroll = 0` and `target_scroll ≥ 0`,
the easing curve stays within [0, 1] for every t ≥ 0 (exactly 1 for
t ≥ 1), so after every tick `0 ≤ current_scroll ≤ target_scroll`, and
`current_scroll` equals `target_scroll` exactly when the phase becomes
`Finished`. -/
theorem tick_no_overshoot (app : RouletteApp) (elapsed : ℚ)
    (hstate : app.roulette_state = RouletteState.Spinning)
    (hstart : app.spin_start_time = true)
    (hs0 : app.start_scroll = 0)
    (htgt : 0 ≤ app.target_scroll)
    (he : 0 ≤ elapsed)
    (hdur : 0 < app.current_animation_duration) :
    (∀ t : ℚ, 0 ≤ t → 0 ≤ ease_out_custom t ∧ ease_out_custom t ≤ 1) ∧
    (∀ t : ℚ, 1 ≤ t → ease_out_custom t = 1) ∧
    0 ≤ (tick app elapsed).current_scroll ∧
    (tick app elapsed).current_scroll ≤ app.target_scroll ∧
    ((tick app elapsed).current_scroll = app.target_scroll ↔
      (tick app elapsed).roulette_state = RouletteState.Finished) := by
  refine ⟨fun t ht => ⟨ease_nonneg t ht, ease_le_one t⟩, fun t ht => ease_of_ge t ht, ?_⟩
  have ht0 : 0 ≤ elapsed / app.current_animation_duration := div_nonneg he hdur.le
  have heN : 0 ≤ ease_out_custom (elapsed / app.current_animation_duration) :=
    ease_nonneg _ ht0
  have heO : ease_out_custom (elapsed / app.current_animation_duration) ≤ 1 :=
    ease_le_one _
  unfold tick
  rw [if_pos hstate, if_pos hstart]
  by_cases hel : elapsed < app.current_animation_duration
  · rw [if_pos hel, hs0]
    set e := ease_out_custom (elapsed / app.current_animation_duration) with he_def
    have hnew0 : 0 ≤ 0 + (app.target_scroll - 0) * e := by
      have := mul_nonneg htgt heN
      simpa using this
    have hnew1 : 0 + (app.target_scroll - 0) * e ≤ app.target_scroll := by
      have := mul_le_of_le_one_right htgt heO
      simpa using this
    by_cases habs : |app.target_scroll - (0 + (app.target_scroll - 0) * e)| < 1 / 2
    · rw [if_pos habs]
      exact ⟨htgt, le_rfl, by simp⟩
    · rw [if_neg habs]
      have hne : 0 + (app.target_scroll - 0) * e ≠ app.target_scroll := by
        intro hcontra
        apply habs
        rw [hcontra]
        norm_num
      simp only [apply_ite RouletteApp.current_scroll, apply_ite RouletteApp.roulette_state,
        ite_self]
      exact ⟨hnew0, hnew1, by rw [hstate]; exact iff_of_false hne (by simp)⟩
  · rw [if_neg hel]
    exact ⟨htgt, le_rfl, by simp⟩

/-- A mid-spin application state with a positive target. -/
def appSpinning : RouletteApp :=
  { appDefault with
    roulette_servers := [serverA, serverB]
    selected_server := some serverB
    roulette_state := RouletteState.Spinning
    spin_start_time := true
    target_scroll := 8085
    current_animation_duration := 12
    needs_update := false }

/-- Witness for C10: a tick of a concrete mid-spin state keeps the
scroll inside [0, target] and equates reaching the target with entering
the `Finished` phase. -/
theorem tick_no_overshoot_witness :
    0 ≤ (tick appSpinning 6).current_scroll ∧
    (tick appSpinning 6).current_scroll ≤ appSpinning.target_scroll ∧
    ((tick appSpinning 6).current_scroll = appSpinning.target_scroll ↔
      (tick appSpinning 6).roulette_state = RouletteState.Finished) :=
  (tick_no_overshoot appSpinning 6 rfl rfl rfl (by norm_num [appSpinning, appDefault])
    (by norm_num) (by norm_num [appSpinning, appDefault])).2.2

/-- C3 counterexample: for the monotonically increasing offset sequence
[0, 200] (one tick stepping 200 distance units, i.e. 2.5 row heights),
the virtual row index goes from 0 to 3, so the rows 0, 1, 2, 3 are all
passed through (4 values beyond the initial sentinel -1), but the code
fires only 2 clicks — one per tick on which the row index increased —
so rows 1 and 2 get no click and the claim "exactly one click per
integer virtualRow value passed through, regardless of the step size"
fails. -/
theorem row_crossing_counterexample :
    (0 : ℚ) < 200 ∧
    virtualRow 0 = 0 ∧ virtualRow 200 = 3 ∧
    runSound ⟨-1, 0⟩ [0, 200] = ⟨3, 2⟩ ∧
    (runSound ⟨-1, 0⟩ [0, 200]).clicks ≠
      ((runSound ⟨-1, 0⟩ [0, 200]).last - (-1)).toNat := by
  have h0 : virtualRow 0 = 0 := by
    norm_num [virtualRow, ROW_HEIGHT, Int.floor_eq_iff]
  have h200 : virtualRow 200 = 3 := by
    norm_num [virtualRow, ROW_HEIGHT, Int.floor_eq_iff]
  have hrun : runSound ⟨-1, 0⟩ [0, 200] = ⟨3, 2⟩ := by
    simp [runSound, soundStep, h0, h200]
  refine ⟨by norm_num, h0, h200, hrun, ?_⟩
  rw [hrun]
  decide

/-- Helper: along a chain of steps that never decrease, the last row is
at least the starting row. -/
theorem getLastD_ge_of_chain (l : List Int) (a : Int)
    (h : List.Chain (fun x y => x ≤ y ∧ y ≤ x + 1) a l) : a ≤ l.getLastD a := by
  induction l generalizing a with
  | nil => exact le_rfl
  | cons b l ih =>
    rcases List.chain_cons.mp h with ⟨⟨hab, -⟩, hbl⟩
    calc a ≤ b := hab
      _ ≤ l.getLastD b := ih b hbl
      _ = (b :: l).getLastD a := (List.getLastD_cons ..).symm

/-- C3 amended: clicks fire exactly on the ticks at which the virtual
row index rises above the last crossed one, never twice for the same
row; when every tick advances the virtual row by at most one (in
particular whenever the per-tick step is smaller than one row height),
this fires exactly one click per integer virtual row value passed
through: the final click count grows by exactly (final row - initial
last crossed row). In general a tick that jumps several rows fires only
a single click, so intermediate rows are skipped. -/
theorem row_crossing_exact (offsets : List ℚ) (last : Int) (c : Nat)
    (hchain : List.Chain (fun a b => a ≤ b ∧ b ≤ a + 1) last (offsets.map virtualRow)) :
    runSound ⟨last, c⟩ offsets =
      ⟨(offsets.map virtualRow).getLastD last,
       c + ((offsets.map virtualRow).getLastD last - last).toNat⟩ := by
  induction offsets generalizing last c with
  | nil => simp [runSound]
  | cons off offs ih =>
    rw [List.map_cons] at hchain
    rcases List.chain_cons.mp hchain with ⟨⟨hlo, hhi⟩, hrest⟩
    have hstep : runSound ⟨last, c⟩ (off :: offs) = runSound (soundStep ⟨last, c⟩ off) offs := by
      simp [runSound]
    rw [List.map_cons, List.getLastD_cons, hstep]
    by_cases hgt : virtualRow off > last
    · have hr : virtualRow off = last + 1 := le_antisymm hhi hgt
      have hsound : soundStep ⟨last, c⟩ off = ⟨virtualRow off, c + 1⟩ := by
        simp [soundStep, hgt]
      rw [hsound, ih _ _ hrest]
      have hge : virtualRow off ≤ (offs.map virtualRow).getLastD (virtualRow off) :=
        getLastD_ge_of_chain _ _ hrest
      refine congrArg _ ?_
      omega
    · have hr : virtualRow off = last := le_antisymm (not_lt.mp hgt) hlo
      have hsound : soundStep ⟨last, c⟩ off = ⟨last, c⟩ := by
        simp [soundStep, hgt]
      rw [hr] at hrest
      rw [hsound, hr]
      exact ih _ _ hrest

/-- Witness for C3 amended: three ticks stepping exactly one row height
each, from the sentinel -1, cross rows 0, 1, 2 and fire exactly 3
clicks. -/
theorem row_crossing_exact_witness :
    List.Chain (fun a b => a ≤ b ∧ b ≤ a + 1) (-1) ([(0 : ℚ), 80, 160].map virtualRow) ∧
    runSound ⟨-1, 0⟩ [0, 80, 160] = ⟨2, 3⟩ := by
  have h0 : virtualRow 0 = 0 := by
    norm_num [virtualRow, ROW_HEIGHT, Int.floor_eq_iff]
  have h80 : virtualRow 80 = 1 := by
    norm_num [virtualRow, ROW_HEIGHT, Int.floor_eq_iff]
  have h160 : virtualRow 160 = 2 := by
    norm_num [virtualRow, ROW_HEIGHT, Int.floor_eq_iff]
  have hch : List.Chain (fun a b => a ≤ b ∧ b ≤ a + 1) (-1)
      ([(0 : ℚ), 80, 160].map virtualRow) := by
    simp [h0, h80, h160]
  refine ⟨hch, (row_crossing_exact [0, 80, 160] (-1) 0 hch).trans ?_⟩
  simp [h0, h80, h160]

/-! ## Fetcher theorems -/

/-- An error outcome for a page request: transport failure, non-success
HTTP status, or malformed payload. -/
def isErrPage (p : PageOutcome) : Prop :=
  p = PageOutcome.transportErr ∨ p = PageOutcome.badStatus ∨ p = PageOutcome.malformed

instance (p : PageOutcome) : Decidable (isErrPage p) := by
  unfold isErrPage
  infer_instance

/-- Once the next-url is empty the pagination loop exits and returns the
accumulator, whatever fuel remains. -/
theorem fetchGo_empty_url (src : Nat → PageOutcome) (fuel j : Nat) (acc : List ServerItem) :
    fetchGo src fuel j "" acc = acc := by
  cases fuel <;> simp [fetchGo]

/-- Characterisation of the pagination loop on a source whose first `k`
requests succeed with non-empty cursors and whose `k`-th request (if
reached before the page cap) errors out: starting at page `j ≤ k` with
fuel `MAX_PAGES - j`, the loop returns the accumulator followed by the
eligible records of pages `j, …, k-1`. -/
theorem fetchGo_spec_aux (src : Nat → PageOutcome) (data : Nat → List ApiAttributes)
    (url : Nat → String) (k : Nat) (hk : k ≤ MAX_PAGES)
    (hgood : ∀ i, i < k → src i = PageOutcome.ok (data i) (some (url i)) ∧ url i ≠ "")
    (hstop : k = MAX_PAGES ∨ isErrPage (src k)) :
    ∀ fuel j cu acc, fuel = MAX_PAGES - j → j ≤ k → cu ≠ "" →
      fetchGo src fuel j cu acc =
        acc ++ ((List.range' j (k - j)).map
          (fun i => (data i).filterMap convertAttr)).flatten := by
  intro fuel
  induction fuel generalizing k with
  | zero =>
    intro j cu acc hfuel hjk hcu
    have hj5 : MAX_PAGES ≤ j := by omega
    have hjk5 : j = k := by omega
    simp [fetchGo, hjk5]
  | succ fuel ih =>
    intro j cu acc hfuel hjk hcu
    have hj5 : j < MAX_PAGES := by omega
    rcases eq_or_lt_of_le hjk with heq | hjlt
    · subst heq
      rcases hstop with h5 | herr
      · omega
      · rcases herr with h | h | h <;>
          simp [fetchGo, hcu, hj5, h, fetchGo_empty_url, Nat.sub_self]
    · obtain ⟨hsrc, hurl⟩ := hgood j hjlt
      have hrec := ih k hk hgood hstop (j + 1) (url j)
        (acc ++ (data j).filterMap convertAttr) (by omega) (by omega) hurl
      have hrange : List.range' j (k - j) = j :: List.range' (j + 1) (k - j - 1) := by
        have h1 : k - j = (k - j - 1) + 1 := by omega
        rw [h1, List.range'_succ]
        simp
      rw [fetchGo, if_pos ⟨hcu, hj5⟩, hsrc]
      simp only [Option.getD_some]
      rw [hrec, hrange, show k - (j + 1) = k - j - 1 from rfl]
      simp

/-- C5: the fetcher stops after at most `MAX_PAGES = 5` pages regardless
of a remaining cursor, and on any transport failure, bad status or
malformed payload it aborts pagination immediately, returning exactly
the eligible records accumulated from the `k` pages already processed
(`k = 5` covers the hard cap; `k < 5` with an error outcome at page `k`
covers the abort-and-keep-partial-results policy). -/
theorem fetch_partial_success (src : Nat → PageOutcome) (data : Nat → List ApiAttributes)
    (url : Nat → String) (k : Nat) (hk : k ≤ MAX_PAGES)
    (hgood : ∀ i, i < k → src i = PageOutcome.ok (data i) (some (url i)) ∧ url i ≠ "")
    (hstop : k = MAX_PAGES ∨ isErrPage (src k)) :
    fetch_roulette_servers src =
      ((List.range k).map (fun i => (data i).filterMap convertAttr)).flatten := by
  have h := fetchGo_spec_aux src data url k hk hgood hstop MAX_PAGES 0 base_url []
    rfl (Nat.zero_le _) (by simp [base_url])
  simpa [fetch_roulette_servers, List.range_eq_range'] using h

/-- An eligible record (country "DE", optional fields present) and an
ineligible one (country "US"). -/
def attrDE : ApiAttributes :=
  { name := "Alpha", players := 80, max_players := 100
    details := { map := some "Narva", game_mode := some "RAAS" }
    country := some "DE" }

def attrUS : ApiAttributes :=
  { name := "Charlie", players := 60, max_players := 100
    details := { map := none, game_mode := none }
    country := some "US" }

/-- A source delivering 3 good pages (each with one eligible record and
a non-empty next cursor) followed by a transport error. -/
def srcThreeGood : Nat → PageOutcome := fun i =>
  if i < 3 then PageOutcome.ok [attrDE] (some "page2") else PageOutcome.transportErr

/-- Witness for C5: the mock source with 3 good pages then a transport
error yields the union of the 3 pages' eligible records — not an empty
result. -/
theorem fetch_partial_success_witness :
    fetch_roulette_servers srcThreeGood =
      ((List.range 3).map (fun i =>
        ((fun _ : Nat => [attrDE]) i).filterMap convertAttr)).flatten :=
  fetch_partial_success srcThreeGood (fun _ => [attrDE]) (fun _ => "page2") 3
    (by norm_num [MAX_PAGES])
    (fun i hi => ⟨by simp [srcThreeGood, hi], by simp⟩)
    (Or.inr (Or.inl (by simp [srcThreeGood])))

/-- Every element of the pagination loop's output is either in the
starting accumulator or the image of `convertAttr` on some record. -/
theorem mem_fetchGo (src : Nat → PageOutcome) (fuel j : Nat) (cu : String)
    (acc : List ServerItem) (item : ServerItem)
    (h : item ∈ fetchGo src fuel j cu acc) :
    item ∈ acc ∨ ∃ attr, convertAttr attr = some item := by
  induction fuel generalizing j cu acc with
  | zero => exact Or.inl (by simpa [fetchGo] using h)
  | succ fuel ih =>
    rw [fetchGo] at h
    by_cases hc : cu ≠ "" ∧ j < MAX_PAGES
    · rw [if_pos hc] at h
      cases hsrc : src j with
      | ok data next =>
        rw [hsrc] at h
        rcases ih _ _ _ h with hacc | hex
        · rcases List.mem_append.mp hacc with hl | hr
          · exact Or.inl hl
          · obtain ⟨attr, -, hconv⟩ := List.mem_filterMap.mp hr
            exact Or.inr ⟨attr, hconv⟩
        · exact Or.inr hex
      | transportErr => rw [hsrc] at h; exact ih _ _ _ h
      | badStatus => rw [hsrc] at h; exact ih _ _ _ h
      | malformed => rw [hsrc] at h; exact ih _ _ _ h
    · rw [if_neg hc] at h
      exact Or.inl h

/-- What a successful conversion guarantees: the stored country is the
(defaulted) country and lies in the allow-list, and the optional map and
game-mode fields are defaulted to "Unknown". -/
theorem convertAttr_spec (attr : ApiAttributes) (s : ServerItem)
    (h : convertAttr attr = some s) :
    s.map = attr.details.map.getD "Unknown" ∧
    s.mode = attr.details.game_mode.getD "Unknown" ∧
    s.country = attr.country.getD "??" ∧
    s.country ∈ EU_SET := by
  by_cases hc : attr.country.getD "??" ∈ EU_SET
  · simp only [convertAttr, if_pos hc, Option.some.injEq] at h
    subst h
    exact ⟨rfl, rfl, rfl, hc⟩
  · simp [convertAttr, if_neg hc] at h

/-- C6: every record in a listing produced by a fetch has a country in
the fixed hardcoded 18-entry allow-list, and a converted record's
missing optional attributes are defaulted (map and mode to "Unknown",
country to "??"). -/
theorem fetch_listing_invariant (src : Nat → PageOutcome) (item : ServerItem)
    (h : item ∈ fetch_roulette_servers src) :
    item.country ∈ EU_SET ∧
    EU_SET.length = 18 ∧
    (∀ attr s, convertAttr attr = some s →
      s.map = attr.details.map.getD "Unknown" ∧
      s.mode = attr.details.game_mode.getD "Unknown" ∧
      s.country = attr.country.getD "??") := by
  refine ⟨?_, rfl, fun attr s hs => ⟨(convertAttr_spec attr s hs).1,
    (convertAttr_spec attr s hs).2.1, (convertAttr_spec attr s hs).2.2.1⟩⟩
  rcases mem_fetchGo src MAX_PAGES 0 base_url [] item h with hacc | ⟨attr, hconv⟩
  · simp at hacc
  · exact (convertAttr_spec attr item hconv).2.2.2

/-- Witness for C6: the eligible record `attrDE` survives a concrete
fetch as `serverA`, whose country "DE" is in the allow-list. -/
theorem fetch_listing_invariant_witness :
    serverA ∈ fetch_roulette_servers srcThreeGood ∧ serverA.country ∈ EU_SET := by
  have hm : serverA ∈ fetch_roulette_servers srcThreeGood := by decide
  exact ⟨hm, (fetch_listing_invariant srcThreeGood serverA hm).1⟩

/-- C9: a fetched record with no country attribute is always excluded:
its country defaults to "??", which is not in the allow-list, so the
record is dropped by `convertAttr`, and consequently no record of any
fetched listing carries the "??" country. -/
theorem missing_country_excluded (attr : ApiAttributes) (h : attr.country = none) :
    convertAttr attr = none ∧
    "??" ∉ EU_SET ∧
    (∀ src item, item ∈ fetch_roulette_servers src → item.country ≠ "??") := by
  have hq : "??" ∉ EU_SET := by decide
  refine ⟨by simp [convertAttr, h, hq], hq, ?_⟩
  intro src item hm hcountry
  rcases mem_fetchGo src MAX_PAGES 0 base_url [] item hm with hacc | ⟨attr', hconv⟩
  · simp at hacc
  · exact hq (hcountry ▸ (convertAttr_spec attr' item hconv).2.2.2)

/-- A record whose country attribute is absent. -/
def attrNone : ApiAttributes :=
  { name := "Hidden", players := 10, max_players := 100
    details := { map := none, game_mode := none }
    country := none }

/-- Witness for C9: the record without a country is dropped. -/
theorem missing_country_excluded_witness :
    convertAttr attrNone = none ∧ "??" ∉ EU_SET :=
  ⟨(missing_country_excluded attrNone rfl).1, (missing_country_excluded attrNone rfl).2.1⟩
